import Mathlib

/-!
Verification of the clinic-branch scraper (`clinic_info_scraper.py`).

The Python class `ClinicInfoScraper` is embedded shallowly:

* HTML documents are modelled by the `Soup` structure, exposing exactly the
  capabilities the code uses from BeautifulSoup (find-first by tag, find-first
  by tag and class, the `th`/`td` text of each table row, the full page text,
  and the anchors with their `href` attributes).
* `requests.get` is modelled by a fetch oracle `String → Except String Soup`
  (an `Except.error` is a raised exception, carrying the exception text).
* `urllib.parse.urljoin` is an external collaborator and is passed in as a
  function parameter `join`.
* Python `re.search` on the literal patterns of the source is modelled by a
  small backtracking engine (`Rx`, `Rx.matches`, `rxSearch`) whose match list
  is ordered by backtracking priority, so `(Rx.matches r s).head?` is the
  match `re.search` returns at a given start position and `rxSearch` scans
  start positions left to right.
* Mutable instance state (`self.progress`, …) is the record `ScraperState`
  passed and returned explicitly.
* Machine integers are `Nat`; the float expression
  `int(self.progress / self.total * 100)` is modelled in exact arithmetic as
  truncating (floor) division on `Nat`.
-/

/-! ## Character-list utilities -/

/-- `startsWithList p s` is true iff `p` is a prefix of `s`. -/
def startsWithList : List Char → List Char → Bool
  | [], _ => true
  | _ :: _, [] => false
  | p :: ps, c :: cs => p == c && startsWithList ps cs

/-- `hasSubstr s p` is true iff `p` occurs contiguously in `s`
(Python `p in s` on strings). -/
def hasSubstr : List Char → List Char → Bool
  | s, p =>
    if startsWithList p s then true
    else
      match s with
      | [] => false
      | _ :: rest => hasSubstr rest p

/-- Python `marker in domain` on `String`. -/
def strContains (s p : String) : Bool := hasSubstr s.data p.data

/-- One character of a URL scheme after the leading letter
(`urllib.parse` accepts letters, digits, `+`, `-`, `.`). -/
def isSchemeChar (c : Char) : Bool := c.isAlpha || c.isDigit || c == '+' || c == '-' || c == '.'

/-- Scan the characters after the leading letter of a candidate scheme; return
the remainder after the `:` when the prefix is a valid scheme, else `none`. -/
def schemeSplit : List Char → Option (List Char)
  | [] => none
  | ':' :: rest => some rest
  | c :: rest => if isSchemeChar c then schemeSplit rest else none

/-- Drop a leading `scheme:` from a URL if present
(mirrors the scheme step of `urllib.parse.urlparse`). -/
def afterScheme (url : List Char) : List Char :=
  match url with
  | [] => []
  | c :: rest =>
    if c.isAlpha then
      match schemeSplit rest with
      | some r => r
      | none => url
    else url

/-- `urllib.parse.urlparse(url).netloc`: after an optional scheme, the part
between a leading `//` and the next `/`, `?` or `#`; empty when the URL does
not start with `//` after the scheme. -/
def netlocChars (url : List Char) : List Char :=
  match afterScheme url with
  | '/' :: '/' :: rest => rest.takeWhile (fun c => c != '/' && c != '?' && c != '#')
  | _ => []

/-- `urlparse(url).netloc` as a `String` (the `domain` local of the source). -/
def urlDomain (url : String) : String := String.mk (netlocChars url.data)

/-- `os.path.dirname`: everything before the last `/` of a path
(empty when the path has no `/`). -/
def dirnameChars (s : List Char) : List Char :=
  ((s.reverse.dropWhile (fun c => c != '/')).drop 1).reverse

/-! ## A backtracking regex engine for the literal patterns of the source

`Rx.matches r s` lists the `(consumed, rest)` pairs of all ways `r` can match
a prefix of `s`, in Python backtracking priority order; `re.search` semantics
are `rxSearch`: try each start position left to right and take the first
(highest-priority) match there. `.lazy` is `.*?` (any run without a newline,
shortest first), `.plusCls q` is a greedy `+` over a character class (longest
first), `.opt` is a greedy `?`, `.eol` is `$` (end of string, or just before a
single terminal newline — Python `re` semantics). -/

inductive Rx where
  | str : List Char → Rx
  | cls : (Char → Bool) → Rx
  | plusCls : (Char → Bool) → Rx
  | seq : Rx → Rx → Rx
  | alt : Rx → Rx → Rx
  | opt : Rx → Rx
  | lazy : Rx
  | eol : Rx

/-- All splits `(c, r)` with `c ++ r = s` and no newline in `c`,
shortest `c` first (the backtracking order of `.*?`). -/
def lazySplits : List Char → List (List Char × List Char)
  | [] => [([], [])]
  | c :: cs =>
    ([], c :: cs) ::
      (if c == '\n' then [] else (lazySplits cs).map (fun p => (c :: p.1, p.2)))

/-- All splits taking a nonempty prefix of the maximal `q`-run of `s`,
longest first (the backtracking order of a greedy `+`). -/
def greedyPlusSplits (q : Char → Bool) (s : List Char) : List (List Char × List Char) :=
  let n := (s.takeWhile q).length
  (List.range n).map (fun j => (s.take (n - j), s.drop (n - j)))

/-- The `(consumed, rest)` pairs of all prefix matches of `r` against `s`,
in backtracking priority order. -/
def Rx.matches : Rx → List Char → List (List Char × List Char)
  | .str p, s => if startsWithList p s then [(p, s.drop p.length)] else []
  | .cls q, s =>
    match s with
    | [] => []
    | c :: cs => if q c then [([c], cs)] else []
  | .plusCls q, s => greedyPlusSplits q s
  | .seq a b, s =>
    (Rx.matches a s).flatMap (fun p => (Rx.matches b p.2).map (fun q2 => (p.1 ++ q2.1, q2.2)))
  | .alt a b, s => Rx.matches a s ++ Rx.matches b s
  | .opt a, s => Rx.matches a s ++ [([], s)]
  | .lazy, s => lazySplits s
  | .eol, s => if s.isEmpty || s == ['\n'] then [([], s)] else []

/-- `re.search(r, s)`: the text of the match at the leftmost start position
where `r` matches, `none` if there is none. -/
def rxSearch (r : Rx) : List Char → Option (List Char)
  | [] => (Rx.matches r []).head?.map Prod.fst
  | c :: cs =>
    match (Rx.matches r (c :: cs)).head? with
    | some p => some p.1
    | none => rxSearch r cs

/-! ## The literal patterns of the source -/

/-- A `\d` character (modelled as a decimal digit). -/
def isDigitCh (c : Char) : Bool := c.isDigit

/-- `(?:都|道|府|県)` as a character class. -/
def prefCh (c : Char) : Bool := c == '都' || c == '道' || c == '府' || c == '県'

/-- `(?:市|区|町|村)` as a character class. -/
def cityCh (c : Char) : Bool := c == '市' || c == '区' || c == '町' || c == '村'

/-- `[^/]`. -/
def nonSlash (c : Char) : Bool := c != '/'

/-- `r'〒\d{3}-\d{4}.*?(?:都|道|府|県).*?(?:市|区|町|村)'`. -/
def addrPat1 : Rx :=
  .seq (.str "〒".data)
    (.seq (.cls isDigitCh) (.seq (.cls isDigitCh) (.seq (.cls isDigitCh)
      (.seq (.str "-".data)
        (.seq (.cls isDigitCh) (.seq (.cls isDigitCh) (.seq (.cls isDigitCh)
          (.seq (.cls isDigitCh)
            (.seq .lazy (.seq (.cls prefCh) (.seq .lazy (.cls cityCh))))))))))))

/-- `r'(?:東京都|大阪府|京都府|北海道|.*?県).*?(?:市|区|町|村).*?\d+'`. -/
def addrPat2 : Rx :=
  .seq
    (.alt (.str "東京都".data)
      (.alt (.str "大阪府".data)
        (.alt (.str "京都府".data)
          (.alt (.str "北海道".data) (.seq .lazy (.str "県".data))))))
    (.seq .lazy (.seq (.cls cityCh) (.seq .lazy (.plusCls isDigitCh))))

/-- The list `address_patterns` of the source, tried in order. -/
def address_patterns : List Rx := [addrPat1, addrPat2]

/-- `r'(?:JR|東京メトロ|都営|私鉄)?.*?(?:線)?.*?駅.*?(?:徒歩|歩いて).*?\d+分'`. -/
def accessPat : Rx :=
  .seq (.opt (.alt (.str "JR".data) (.alt (.str "東京メトロ".data)
      (.alt (.str "都営".data) (.str "私鉄".data)))))
    (.seq .lazy (.seq (.opt (.str "線".data))
      (.seq .lazy (.seq (.str "駅".data)
        (.seq .lazy (.seq (.alt (.str "徒歩".data) (.str "歩いて".data))
          (.seq .lazy (.seq (.plusCls isDigitCh) (.str "分".data)))))))))

/-- One link pattern `r'/<marker>/[^/]+/?$'` of the source, for a given
`/<marker>/` prefix. -/
def endPat (mk : List Char) : Rx :=
  .seq (.str mk) (.seq (.plusCls nonSlash) (.seq (.opt (.str "/".data)) .eol))

/-- The four path markers of `link_patterns`. -/
def linkMarkers : List String := ["/clinic/", "/store/", "/shop/", "/access/"]

/-- The list `link_patterns` of the source. -/
def link_patterns : List Rx := linkMarkers.map (fun m => endPat m.data)

/-- The inner loop of `find_clinic_links`: does any of the four patterns
match the raw `href` string? -/
def matchesAnyLinkPat (href : String) : Bool :=
  link_patterns.any (fun p => (rxSearch p href.data).isSome)

/-! ## Data model -/

/-- One `<a href=…>` element: the raw `href` attribute and the anchor's
stripped text. -/
structure Anchor where
  href : String
  text : String
deriving DecidableEq, Repr

/-- One `<tr>` element: the stripped text of its first `<th>` and first
`<td>`, if present. -/
structure TableRow where
  th : Option String
  td : Option String
deriving DecidableEq, Repr

/-- A parsed page, exposing exactly the BeautifulSoup capabilities the source
uses. `findTagClass t c` is `soup.find(t, class_=c)`, `findTag t` is
`soup.find(t)` — both return the stripped text of the first hit.
`rows` is `soup.find_all('tr')`, `textContent` is `soup.get_text()`,
`anchors` is `soup.find_all('a', href=True)`, all in document order. -/
structure Soup where
  findTagClass : String → String → Option String
  findTag : String → Option String
  rows : List TableRow
  textContent : String
  anchors : List Anchor

/-- The `clinic_info` dict built by `extract_clinic_info`. -/
structure ClinicInfo where
  name : String
  address : String
  access : String
  url : String
deriving DecidableEq, Repr

/-- An element of the list returned by `find_clinic_links`:
resolved URL and anchor text. -/
structure BranchLink where
  url : String
  name : String
deriving DecidableEq, Repr

/-- The mutable instance state of `ClinicInfoScraper`. -/
structure ScraperState where
  progress : Nat
  total : Nat
  status : String
  current_action : String
  clinic_data : List ClinicInfo
deriving DecidableEq, Repr

/-- The state set by `__init__`. -/
def initState : ScraperState :=
  { progress := 0, total := 0, status := "待機中", current_action := "", clinic_data := [] }

/-- The dict returned by `get_progress`. -/
structure ProgressInfo where
  progress : Nat
  total : Nat
  percentage : Nat
  status : String
  current_action : String
  clinic_count : Nat
deriving DecidableEq, Repr

/-! ## The floating-point percentage of `get_progress`

`int(self.progress / self.total * 100)` evaluates in IEEE-754 binary64:
`progress / total` is the correctly rounded (round-to-nearest, ties-to-even)
double of the exact quotient, the product with the exactly representable
`100.0` is again correctly rounded, and `int()` truncates toward zero. The
model below computes exactly that, carrying a double as a significand and an
exponent: the pair `(m, e)` stands for the value `m * 2 ^ (e - 52)` with
`2 ^ 52 ≤ m ≤ 2 ^ 53` for nonzero inputs. The exponent is unbounded (no
overflow to infinity, no subnormals), which is faithful for every magnitude a
progress counter can produce; `progress / total` on huge integers whose
quotient exceeds the double range raises `OverflowError` in Python and is out
of scope. -/

/-- `⌊log2 n⌋` for `n ≥ 1` (and `0` for `n = 0`), by structural recursion on
a fuel argument so that it reduces definitionally. -/
def natLog2Aux : Nat → Nat → Nat
  | 0, _ => 0
  | fuel + 1, n => if 2 ≤ n then natLog2Aux fuel (n / 2) + 1 else 0

/-- `⌊log2 n⌋`; `n` itself is always enough fuel. -/
def natLog2 (n : Nat) : Nat := natLog2Aux n n

/-- Is `2 ^ e ≤ a / b` (for positive naturals `a`, `b`)? -/
def pow2Le (e : ℤ) (a b : Nat) : Bool :=
  if 0 ≤ e then decide (b * 2 ^ e.toNat ≤ a) else decide (b ≤ a * 2 ^ (-e).toNat)

/-- The binary64 rounding of the nonnegative rational `a / b` (for `b ≠ 0`),
as a significand–exponent pair `(m, e)` of value `m * 2 ^ (e - 52)`.
`e = ⌊log2 (a/b)⌋` is located from the `natLog2` difference (off by at most
one, fixed up by direct comparison); the scaled significand `a/b * 2^(52-e)`
lies in `[2^52, 2^53)` and is rounded to the nearest integer, ties to even —
exactly the IEEE-754 round-to-nearest-even rule. -/
def flSig (a b : Nat) : Nat × ℤ :=
  if a = 0 then (0, 0)
  else
    let d : ℤ := (natLog2 a : ℤ) - (natLog2 b : ℤ)
    let e : ℤ := if pow2Le (d + 1) a b then d + 1 else if pow2Le d a b then d else d - 1
    let num : Nat := if 0 ≤ 52 - e then a * 2 ^ (52 - e).toNat else a
    let den : Nat := if 0 ≤ 52 - e then b else b * 2 ^ (e - 52).toNat
    let n : Nat := num / den
    let r : Nat := num % den
    let m : Nat :=
      if den < 2 * r then n + 1
      else if 2 * r < den then n
      else if n % 2 = 0 then n else n + 1
    (m, e)

/-- Python `int(p / t * 100)` for `t > 0`: round `p / t` to a double, multiply
by `100` and round again (the product of the double `m1 * 2 ^ (e1 - 52)` with
`100` is formed exactly and rerounded), then truncate toward zero (for these
nonnegative values, floor). -/
def pyFloatPct (p t : Nat) : Nat :=
  let s1 := flSig p t
  let a2 : Nat := if 0 ≤ s1.2 - 52 then s1.1 * 100 * 2 ^ (s1.2 - 52).toNat else s1.1 * 100
  let b2 : Nat := if 0 ≤ s1.2 - 52 then 1 else 2 ^ (52 - s1.2).toNat
  let s2 := flSig a2 b2
  if 0 ≤ s2.2 - 52 then s2.1 * 2 ^ (s2.2 - 52).toNat else s2.1 / 2 ^ (52 - s2.2).toNat

/-- `ClinicInfoScraper.get_progress`. The percentage is
`int(self.progress / self.total * 100)` when `total > 0` else `0`, with the
float expression modelled by `pyFloatPct`. -/
def get_progress (s : ScraperState) : ProgressInfo :=
  { progress := s.progress
    total := s.total
    percentage := if s.total > 0 then pyFloatPct s.progress s.total else 0
    status := s.status
    current_action := s.current_action
    clinic_count := s.clinic_data.length }

/-! ## `extract_clinic_info` -/

/-- The generic name scan of `extract_clinic_info`: for each tag in order,
take the first element of that tag; if its text contains `院` or `クリニック`
it is the name, otherwise try the next tag. -/
def scanTags (soup : Soup) : List String → Option String
  | [] => none
  | tag :: rest =>
    match soup.findTag tag with
    | some t =>
      if strContains t "院" || strContains t "クリニック" then some t
      else scanTags soup rest
    | none => scanTags soup rest

/-- One `<tr>` of the エミナル (eminal) table scan: rows with both a `th` and
a `td` set the field whose keyword (`院名` / `住所` / `アクセス`) occurs in
the header text; later rows overwrite earlier ones. -/
def applyRowEminal (c : ClinicInfo) (row : TableRow) : ClinicInfo :=
  match row.th, row.td with
  | some th, some td =>
    if strContains th "院名" then { c with name := td }
    else if strContains th "住所" then { c with address := td }
    else if strContains th "アクセス" then { c with access := td }
    else c
  | _, _ => c

/-- One `<tr>` of the フレイア (frey-a) table scan: keywords `所在地` /
`アクセス`. -/
def applyRowFreya (c : ClinicInfo) (row : TableRow) : ClinicInfo :=
  match row.th, row.td with
  | some th, some td =>
    if strContains th "所在地" then { c with address := td }
    else if strContains th "アクセス" then { c with access := td }
    else c
  | _, _ => c

/-- The page-derived name of the eminal table scan: the `td` text of the last
row that has both cells and whose `th` text contains `院名` (rows are applied
in document order, so a later matching row overwrites an earlier one). -/
def lastRowName : List TableRow → Option String
  | [] => none
  | row :: rest =>
    match lastRowName rest with
    | some t => some t
    | none =>
      match row.th, row.td with
      | some th, some td => if strContains th "院名" then some td else none
      | _, _ => none

/-- The loop `for pattern in address_patterns: … break` of the generic
branch: the match of the first pattern that matches, if any. -/
def firstPatternMatch : List Rx → List Char → Option (List Char)
  | [], _ => none
  | p :: rest, text =>
    match rxSearch p text with
    | some m => some m
    | none => firstPatternMatch rest text

/-- `ClinicInfoScraper.extract_clinic_info(soup, url, clinic_name="")`.
The record starts as `{name: clinic_name, address: '', access: '', url: url}`
and is filled by the host-marker branch selected on
`urlparse(url).netloc`. -/
def extract_clinic_info (soup : Soup) (url : String) (clinic_name : String) : ClinicInfo :=
  let clinic_info : ClinicInfo := { name := clinic_name, address := "", access := "", url := url }
  let domain := urlDomain url
  if strContains domain "dioclinic" then
    let c := match soup.findTagClass "h2" "clinic-name" with
      | some t => { clinic_info with name := t }
      | none => clinic_info
    let c := match soup.findTagClass "div" "address" with
      | some t => { c with address := t }
      | none => c
    match soup.findTagClass "div" "access" with
    | some t => { c with access := t }
    | none => c
  else if strContains domain "eminal-clinic" then
    soup.rows.foldl applyRowEminal clinic_info
  else if strContains domain "frey-a" then
    let c := match soup.findTag "h1" with
      | some t => { clinic_info with name := t }
      | none => clinic_info
    soup.rows.foldl applyRowFreya c
  else
    let c :=
      if clinic_info.name == "" then
        match scanTags soup ["h1", "h2"] with
        | some t => { clinic_info with name := t }
        | none => clinic_info
      else clinic_info
    let c := match firstPatternMatch address_patterns soup.textContent.data with
      | some m => { c with address := String.mk m }
      | none => c
    match rxSearch accessPat soup.textContent.data with
    | some m => { c with access := String.mk m }
    | none => c

/-! ## `find_clinic_links` -/

/-- The `clinic_links` list of `find_clinic_links` before deduplication: every
anchor whose raw `href` matches one of the four patterns, in document order,
with the URL resolved against `base_url` by the `join` collaborator
(`urljoin`). -/
def clinicLinkCandidates (join : String → String → String) (soup : Soup)
    (base_url : String) : List BranchLink :=
  (soup.anchors.filter (fun a => matchesAnyLinkPat a.href)).map
    (fun a => { url := join base_url a.href, name := a.text })

/-- The dedup loop of `find_clinic_links`: keep a link iff its URL is not in
`seen`, adding kept URLs to `seen` (first occurrence wins, order
preserved). -/
def dedupLinks : List BranchLink → List String → List BranchLink
  | [], _ => []
  | l :: rest, seen =>
    if l.url ∈ seen then dedupLinks rest seen
    else l :: dedupLinks rest (l.url :: seen)

/-- `ClinicInfoScraper.find_clinic_links(soup, base_url)`. -/
def find_clinic_links (join : String → String → String) (soup : Soup)
    (base_url : String) : List BranchLink :=
  dedupLinks (clinicLinkCandidates join soup base_url) []

/-! ## `scrape_clinics` -/

/-- Lines 183–190 of the source: set the status, extract the current page with
no fallback name, and append the record iff its name is nonempty and its
address or access is nonempty (Python truthiness of the strings), setting
`progress = total = 1`. -/
def processRoot (soup : Soup) (url : String) (s : ScraperState) : ScraperState :=
  let s := { s with status := "店舗情報を抽出中..." }
  let current_page_info := extract_clinic_info soup url ""
  if current_page_info.name != "" &&
      (current_page_info.address != "" || current_page_info.access != "") then
    { s with clinic_data := s.clinic_data ++ [current_page_info],
             progress := 1, total := 1 }
  else s

/-- The `for i, link in enumerate(clinic_links)` loop of `scrape_clinics`:
per link set progress/status/action, fetch the link's URL; on success extract
with the link's text as fallback name and append iff the name is nonempty; on
a fetch error skip the link and continue (the `time.sleep(1)` pause has no
observable effect in this model). -/
def branchLoop (fetch : String → Except String Soup) :
    List BranchLink → Nat → ScraperState → ScraperState
  | [], _, s => s
  | link :: rest, i, s =>
    let s := { s with
      progress := i + 1,
      status := "店舗情報を取得中... (" ++ toString (i + 1) ++ "/" ++ toString s.total ++ ")",
      current_action := "取得中: " ++ link.name }
    let s :=
      match fetch link.url with
      | .ok clinic_soup =>
        let clinic_info := extract_clinic_info clinic_soup link.url link.name
        if clinic_info.name != "" then
          { s with clinic_data := s.clinic_data ++ [clinic_info] }
        else s
      | .error _ => s
    branchLoop fetch rest (i + 1) s

/-- `ClinicInfoScraper.scrape_clinics(url)`: fetch the root page (a fetch
error is the outer `except`: status `エラー`, the exception text in
`current_action`, return `False`), extract and maybe keep the root record, run
`find_clinic_links`, and when strictly more than 3 links were found treat the
page as a listing: reset `total`/`progress` and run the branch loop. Returns
the final state and the success flag. -/
def scrape_clinics (join : String → String → String) (fetch : String → Except String Soup)
    (url : String) (s0 : ScraperState) : ScraperState × Bool :=
  let s1 := { s0 with status := "ページを取得中...", current_action := "URL: " ++ url }
  match fetch url with
  | .error e => ({ s1 with status := "エラー", current_action := e }, false)
  | .ok soup =>
    let s2 := processRoot soup url s1
    let clinic_links := find_clinic_links join soup url
    let s3 :=
      if clinic_links.length > 3 then
        branchLoop fetch clinic_links 0 { s2 with total := clinic_links.length, progress := 0 }
      else s2
    ({ s3 with status := "完了",
               current_action := toString s3.clinic_data.length ++ "件の店舗情報を取得しました" },
     true)

/-! ## `save_to_csv` -/

/-- The default filename of `save_to_csv`: `downloads/<domain>_clinics_<timestamp>.csv`,
where `<domain>` is the netloc of the first record's URL, or the literal
`clinics` when the record list is empty. -/
def default_csv_name (clinic_data : List ClinicInfo) (timestamp : String) : String :=
  let domain := match clinic_data.head? with
    | some c => urlDomain c.url
    | none => "clinics"
  "downloads/" ++ domain ++ "_clinics_" ++ timestamp ++ ".csv"

/-- `ClinicInfoScraper.save_to_csv(filename=None)`. The file-system effects
are returned as data: the directory passed to
`os.makedirs(os.path.dirname(filename), exist_ok=True)`, the filename, and
the rows written (header first, then one row per record). A `None` or empty
`filename` argument (Python `if not filename`) selects the default name;
`timestamp` stands for `datetime.now().strftime('%Y%m%d_%H%M%S')`. -/
def save_to_csv (clinic_data : List ClinicInfo) (timestamp : String)
    (filename : Option String) : String × String × List (List String) :=
  let fname := match filename with
    | none => default_csv_name clinic_data timestamp
    | some f => if f == "" then default_csv_name clinic_data timestamp else f
  (String.mk (dirnameChars fname.data), fname,
   ["店舗名", "住所", "アクセス", "URL"] ::
     clinic_data.map (fun c => [c.name, c.address, c.access, c.url]))

/-! ## The spec's end-anchoring shape (for claim C8)

Modelled from the spec's words, for comparison with the behaviour of the
source patterns: a match shape `…/<marker>/<segment>` where the segment is a
nonempty run without `/` that ends the string, optionally followed by exactly
one trailing slash. -/

/-- Does `r` consist of one nonempty `/`-free segment optionally followed by a
single trailing slash, with nothing after it? -/
def strictTail (r : List Char) : Bool :=
  let seg := r.takeWhile (fun c => c != '/')
  let rest := r.drop seg.length
  !seg.isEmpty && (rest.isEmpty || rest == ['/'])

/-- Modelled from the spec: spec-shape of an end-anchored link-pattern match —
some occurrence of `mk` whose remainder is a nonempty `/`-free segment
optionally followed by one trailing slash and then the end of the string. -/
def strictEndAnchored (mk : List Char) : List Char → Bool
  | [] => false
  | c :: cs =>
    (startsWithList mk (c :: cs) && strictTail ((c :: cs).drop mk.length)) ||
      strictEndAnchored mk cs

/-- The spec-shape over all four markers. -/
def anyStrictEndAnchored (href : String) : Bool :=
  linkMarkers.any (fun m => strictEndAnchored m.data href.data)

/-! ## Concrete fixtures used by witnesses and counterexamples -/

/-- A parsed page with no recognisable content. -/
def emptySoup : Soup :=
  { findTagClass := fun _ _ => none, findTag := fun _ => none,
    rows := [], textContent := "", anchors := [] }

/-- A generic page whose first `h1` is a qualifying clinic name. -/
def headingSoup : Soup :=
  { emptySoup with findTag := fun t => if t == "h1" then some "新宿クリニック" else none }

/-- A generic page whose text contains the spec's sample address. -/
def addrSoup : Soup :=
  { emptySoup with textContent := "〒150-0001東京都渋谷区渋谷1-1-1" }

/-- A generic page with an earlier postal address before the spec's sample
address. -/
def dupAddrSoup : Soup :=
  { emptySoup with
    textContent := "〒100-0002東京都千代田区〒150-0001東京都渋谷区渋谷1-1-1" }

/-- A DIO-style page with a clinic name and an address element. -/
def dioSoup : Soup :=
  { emptySoup with findTagClass := fun t c =>
      if t == "h2" && c == "clinic-name" then some "新宿院"
      else if t == "div" && c == "address" then some "東京都渋谷区1-1"
      else none }

/-- An eminal-style page whose table has an `院名` row and a `住所` row. -/
def eminalSoup : Soup :=
  { emptySoup with
    rows := [⟨some "院名", some "渋谷院"⟩, ⟨some "住所", some "東京都渋谷区1-1"⟩] }

/-- Listing pages with 3, 4 and 5 branch links. -/
def rootSoup3 : Soup :=
  { emptySoup with anchors :=
      [⟨"/clinic/b1", "店舗1"⟩, ⟨"/clinic/b2", "店舗2"⟩, ⟨"/clinic/b3", "店舗3"⟩] }

def rootSoup4 : Soup :=
  { emptySoup with anchors :=
      [⟨"/clinic/b1", "店舗1"⟩, ⟨"/clinic/b2", "店舗2"⟩, ⟨"/clinic/b3", "店舗3"⟩,
       ⟨"/clinic/b4", "店舗4"⟩] }

def rootSoup5 : Soup :=
  { emptySoup with anchors :=
      [⟨"/clinic/b1", "店舗1"⟩, ⟨"/clinic/b2", "店舗2"⟩, ⟨"/clinic/b3", "店舗3"⟩,
       ⟨"/clinic/b4", "店舗4"⟩, ⟨"/clinic/b5", "店舗5"⟩] }

/-- A page with a duplicated branch link. -/
def dupLinkSoup : Soup :=
  { emptySoup with anchors :=
      [⟨"/clinic/a", "A"⟩, ⟨"/clinic/b", "B"⟩, ⟨"/clinic/a", "A2"⟩] }

/-- A fixed `urljoin` collaborator for the fixtures: every href in them is
site-relative. -/
def joinW : String → String → String := fun _ href => "http://x.st" ++ href

/-- The fixtures' root URL. -/
def urlW : String := "http://x.st/top"

/-- Fetch oracles serving the 3-, 4- and 5-link listings; `fetchW5` fails on
the third branch page and serves an empty page for the other branches. -/
def fetchW3 : String → Except String Soup :=
  fun u => if u == urlW then .ok rootSoup3 else .error "branch error"

def fetchW4 : String → Except String Soup :=
  fun u => if u == urlW then .ok rootSoup4 else .error "branch error"

def fetchW5 : String → Except String Soup :=
  fun u =>
    if u == urlW then .ok rootSoup5
    else if u == "http://x.st/clinic/b3" then .error "connection error"
    else .ok emptySoup

/-! ## Helper lemmas: prefix and substring -/

theorem startsWithList_iff (p s : List Char) :
    startsWithList p s = true ↔ ∃ t, s = p ++ t := by
  induction p generalizing s with
  | nil => simp [startsWithList]
  | cons x ps ih =>
    cases s with
    | nil => simp [startsWithList]
    | cons c cs =>
      simp only [startsWithList, Bool.and_eq_true, beq_iff_eq, List.cons_append,
        List.cons.injEq]
      constructor
      · rintro ⟨rfl, h⟩
        obtain ⟨t, rfl⟩ := (ih cs).mp h
        exact ⟨t, rfl, rfl⟩
      · rintro ⟨t, rfl, rfl⟩
        exact ⟨rfl, (ih _).mpr ⟨t, rfl⟩⟩

theorem startsWithList_append (p t : List Char) :
    startsWithList p (p ++ t) = true :=
  (startsWithList_iff p (p ++ t)).mpr ⟨t, rfl⟩

theorem hasSubstr_split {s p : List Char} (h : hasSubstr s p = true) :
    ∃ pre post, s = pre ++ p ++ post := by
  induction s with
  | nil =>
    rw [hasSubstr] at h
    split at h
    · rename_i hsw
      obtain ⟨t, ht⟩ := (startsWithList_iff p []).mp hsw
      exact ⟨[], t, by simpa using ht⟩
    · simp at h
  | cons c cs ih =>
    rw [hasSubstr] at h
    split at h
    · rename_i hsw
      obtain ⟨t, ht⟩ := (startsWithList_iff p (c :: cs)).mp hsw
      exact ⟨[], t, by simpa using ht⟩
    · obtain ⟨pre, post, hsplit⟩ := ih h
      exact ⟨c :: pre, post, by simp [hsplit]⟩

theorem dropWhile_append_of_all {q : Char → Bool} {l r : List Char}
    (h : ∀ c ∈ l, q c = true) :
    (l ++ r).dropWhile q = r.dropWhile q := by
  induction l with
  | nil => rfl
  | cons x xs ih =>
    simp only [List.cons_append, List.dropWhile_cons, h x (by simp)]
    exact ih (fun c hc => h c (by simp [hc]))

/-! ## Helper lemmas: the regex engine -/

theorem mem_lazySplits_sound {c r s : List Char} (h : (c, r) ∈ lazySplits s) :
    s = c ++ r := by
  induction s generalizing c r with
  | nil =>
    simp only [lazySplits, List.mem_singleton, Prod.mk.injEq] at h
    simp [h.1, h.2]
  | cons x xs ih =>
    simp only [lazySplits, List.mem_cons, Prod.mk.injEq] at h
    rcases h with ⟨rfl, rfl⟩ | h
    · simp
    · split at h
      · simp at h
      · simp only [List.mem_map, Prod.mk.injEq] at h
        obtain ⟨⟨c', r'⟩, hmem, hc, rfl⟩ := h
        subst hc
        simp [ih hmem]

theorem mem_lazySplits_intro {c : List Char} (r : List Char)
    (h : ∀ x ∈ c, x ≠ '\n') : (c, r) ∈ lazySplits (c ++ r) := by
  induction c with
  | nil =>
    cases r with
    | nil => simp [lazySplits]
    | cons y ys => simp [lazySplits]
  | cons x xs ih =>
    have hx : (x == '\n') = false := by
      simpa using h x (by simp)
    simp only [List.cons_append, lazySplits, hx, if_false, List.mem_cons]
    right
    exact List.mem_map.mpr ⟨(xs, r), ih (fun y hy => h y (by simp [hy])), rfl⟩

theorem takeWhile_length_le (q : Char → Bool) (s : List Char) :
    (s.takeWhile q).length ≤ s.length := by
  induction s with
  | nil => simp
  | cons c cs ih =>
    simp only [List.takeWhile_cons]
    split
    · simpa using Nat.succ_le_succ ih
    · simp

theorem take_all_of_le_takeWhile {q : Char → Bool} {s : List Char} {k : Nat}
    (hk : k ≤ (s.takeWhile q).length) : ∀ x ∈ s.take k, q x = true := by
  induction s generalizing k with
  | nil => simp
  | cons c cs ih =>
    cases k with
    | zero => simp
    | succ j =>
      by_cases hq : q c = true
      · simp only [List.takeWhile_cons, hq, if_true, List.length_cons,
          Nat.succ_le_succ_iff] at hk
        intro x hx
        simp only [List.take_succ_cons, List.mem_cons] at hx
        rcases hx with rfl | hx
        · exact hq
        · exact ih hk x hx
      · simp only [List.takeWhile_cons, hq] at hk
        simp at hk

theorem mem_greedyPlusSplits_elim {q : Char → Bool} {s c r : List Char}
    (h : (c, r) ∈ greedyPlusSplits q s) :
    c ≠ [] ∧ (∀ x ∈ c, q x = true) ∧ s = c ++ r := by
  simp only [greedyPlusSplits, List.mem_map, List.mem_range, Prod.mk.injEq] at h
  obtain ⟨j, hj, hc, hr⟩ := h
  subst hc; subst hr
  set n := (s.takeWhile q).length with hn
  have hk1 : 1 ≤ n - j := Nat.le_sub_of_add_le (by omega)
  have hkn : n - j ≤ n := Nat.sub_le n j
  have hlen : n ≤ s.length := by
    rw [hn]; exact takeWhile_length_le q s
  refine ⟨?_, take_all_of_le_takeWhile hkn, (List.take_append_drop _ s).symm⟩
  have : (s.take (n - j)).length = n - j := List.length_take_of_le (by omega)
  intro hnil
  rw [hnil] at this
  simp at this
  omega

theorem matches_sound {rx : Rx} :
    ∀ {s c r : List Char}, (c, r) ∈ Rx.matches rx s → s = c ++ r := by
  induction rx with
  | str p =>
    intro s c r h
    rw [Rx.matches] at h
    split at h
    · rename_i hsw
      simp only [List.mem_singleton, Prod.mk.injEq] at h
      obtain ⟨rfl, rfl⟩ := h
      obtain ⟨t, rfl⟩ := (startsWithList_iff _ _).mp hsw
      simp
    · simp at h
  | cls q =>
    intro s c r h
    cases s with
    | nil => simp [Rx.matches] at h
    | cons x xs =>
      rw [Rx.matches] at h
      split at h
      · simp only [List.mem_singleton, Prod.mk.injEq] at h
        obtain ⟨rfl, rfl⟩ := h
        simp
      · simp at h
  | plusCls q =>
    intro s c r h
    exact (mem_greedyPlusSplits_elim h).2.2
  | seq a b iha ihb =>
    intro s c r h
    rw [Rx.matches] at h
    simp only [List.mem_flatMap, List.mem_map, Prod.mk.injEq] at h
    obtain ⟨⟨c1, r1⟩, h1, ⟨c2, r2⟩, h2, hc, hr⟩ := h
    subst hc; subst hr
    have e1 : s = c1 ++ r1 := iha h1
    have e2 : r1 = c2 ++ r2 := ihb h2
    show s = (c1 ++ c2) ++ r2
    rw [e1, e2, List.append_assoc]
  | alt a b iha ihb =>
    intro s c r h
    rw [Rx.matches] at h
    rcases List.mem_append.mp h with h | h
    · exact iha h
    · exact ihb h
  | opt a iha =>
    intro s c r h
    rw [Rx.matches] at h
    rcases List.mem_append.mp h with h | h
    · exact iha h
    · simp only [List.mem_singleton, Prod.mk.injEq] at h
      obtain ⟨rfl, rfl⟩ := h
      simp
  | lazy =>
    intro s c r h
    exact mem_lazySplits_sound h
  | eol =>
    intro s c r h
    rw [Rx.matches] at h
    split at h
    · simp only [List.mem_singleton, Prod.mk.injEq] at h
      obtain ⟨rfl, rfl⟩ := h
      rfl
    · simp at h

theorem matches_str_elim {p s c r : List Char}
    (h : (c, r) ∈ Rx.matches (.str p) s) : c = p ∧ s = p ++ r := by
  have hs := matches_sound h
  rw [Rx.matches] at h
  split at h
  · simp only [List.mem_singleton, Prod.mk.injEq] at h
    exact ⟨h.1, h.1 ▸ hs⟩
  · simp at h

theorem matches_seq_elim {a b : Rx} {s c r : List Char}
    (h : (c, r) ∈ Rx.matches (.seq a b) s) :
    ∃ c1 r1 c2, (c1, r1) ∈ Rx.matches a s ∧ (c2, r) ∈ Rx.matches b r1 ∧ c = c1 ++ c2 := by
  rw [Rx.matches] at h
  simp only [List.mem_flatMap, List.mem_map, Prod.mk.injEq] at h
  obtain ⟨⟨c1, r1⟩, h1, ⟨c2, r2⟩, h2, hc, hr⟩ := h
  exact ⟨c1, r1, c2, h1, hr ▸ h2, hc.symm⟩

theorem matches_opt_elim {a : Rx} {s c r : List Char}
    (h : (c, r) ∈ Rx.matches (.opt a) s) :
    (c, r) ∈ Rx.matches a s ∨ (c = [] ∧ r = s) := by
  rw [Rx.matches] at h
  rcases List.mem_append.mp h with h | h
  · exact Or.inl h
  · simp only [List.mem_singleton, Prod.mk.injEq] at h
    exact Or.inr h

theorem matches_eol_elim {s c r : List Char}
    (h : (c, r) ∈ Rx.matches .eol s) :
    c = [] ∧ r = s ∧ (s = [] ∨ s = ['\n']) := by
  rw [Rx.matches] at h
  split at h
  · rename_i hcond
    simp only [List.mem_singleton, Prod.mk.injEq] at h
    refine ⟨h.1, h.2, ?_⟩
    simp only [Bool.or_eq_true, List.isEmpty_iff, beq_iff_eq] at hcond
    exact hcond
  · simp at h

theorem mem_matches_str (p r : List Char) :
    (p, r) ∈ Rx.matches (.str p) (p ++ r) := by
  rw [Rx.matches, if_pos (startsWithList_append p r)]
  simp [List.drop_left]

theorem mem_matches_cls {q : Char → Bool} {c : Char} (r : List Char)
    (h : q c = true) : ([c], r) ∈ Rx.matches (.cls q) (c :: r) := by
  rw [Rx.matches]
  simp [h]

theorem mem_matches_seq {a b : Rx} {s c1 r1 c2 r2 : List Char}
    (h1 : (c1, r1) ∈ Rx.matches a s) (h2 : (c2, r2) ∈ Rx.matches b r1) :
    (c1 ++ c2, r2) ∈ Rx.matches (.seq a b) s := by
  rw [Rx.matches]
  exact List.mem_flatMap.mpr ⟨(c1, r1), h1, List.mem_map.mpr ⟨(c2, r2), h2, rfl⟩⟩

theorem mem_matches_lazy {c : List Char} (r : List Char)
    (h : ∀ x ∈ c, x ≠ '\n') : (c, r) ∈ Rx.matches .lazy (c ++ r) := by
  rw [Rx.matches]
  exact mem_lazySplits_intro r h

theorem rxSearch_sound {rx : Rx} {s m : List Char} (h : rxSearch rx s = some m) :
    ∃ pre t r, s = pre ++ t ∧ (m, r) ∈ Rx.matches rx t := by
  induction s with
  | nil =>
    rw [rxSearch] at h
    match hh : (Rx.matches rx []).head? with
    | none => rw [hh] at h; simp at h
    | some p =>
      rw [hh] at h
      have hm : p.1 = m := by simpa using h
      refine ⟨[], [], p.2, rfl, ?_⟩
      rw [← hm]
      exact List.mem_of_mem_head? hh
  | cons x xs ih =>
    rw [rxSearch] at h
    match hh : (Rx.matches rx (x :: xs)).head? with
    | some p =>
      rw [hh] at h
      simp only [Option.some.injEq] at h
      refine ⟨[], x :: xs, p.2, rfl, ?_⟩
      rw [← h]
      exact List.mem_of_mem_head? hh
    | none =>
      rw [hh] at h
      simp only at h
      obtain ⟨pre, t, r, hsplit, hmem⟩ := ih h
      exact ⟨x :: pre, t, r, by simp [hsplit], hmem⟩

theorem rxSearch_isSome_of_suffix {rx : Rx} {t : List Char}
    (hne : Rx.matches rx t ≠ []) :
    ∀ pre : List Char, (rxSearch rx (pre ++ t)).isSome = true := by
  intro pre
  induction pre with
  | nil =>
    simp only [List.nil_append]
    match t with
    | [] =>
      rw [rxSearch]
      match hh : (Rx.matches rx []).head? with
      | some p => simp
      | none => exact absurd (List.head?_eq_none_iff.mp hh) hne
    | x :: xs =>
      rw [rxSearch]
      match hh : (Rx.matches rx (x :: xs)).head? with
      | some p => simp
      | none => exact absurd (List.head?_eq_none_iff.mp hh) hne
  | cons y ys ih =>
    simp only [List.cons_append]
    rw [rxSearch]
    match hh : (Rx.matches rx (y :: (ys ++ t))).head? with
    | some p => simp
    | none => exact ih

/-! ## Helper lemmas: the dedup loop of `find_clinic_links` -/

theorem dedupLinks_sublist : ∀ (cands : List BranchLink) (seen : List String),
    List.Sublist (dedupLinks cands seen) cands := by
  intro cands
  induction cands with
  | nil => intro seen; simp [dedupLinks]
  | cons l rest ih =>
    intro seen
    rw [dedupLinks]
    split
    · exact (ih seen).cons l
    · exact (ih (l.url :: seen)).cons₂ l

theorem dedupLinks_find? : ∀ (cands : List BranchLink) (seen : List String)
    (r : BranchLink), r ∈ dedupLinks cands seen →
    r.url ∉ seen ∧ cands.find? (fun c => c.url == r.url) = some r := by
  intro cands
  induction cands with
  | nil => intro seen r h; simp [dedupLinks] at h
  | cons l rest ih =>
    intro seen r h
    rw [dedupLinks] at h
    split at h
    · rename_i hseen
      obtain ⟨hnot, hfind⟩ := ih seen r h
      have hne : (l.url == r.url) = false := by
        simp only [beq_eq_false_iff_ne, ne_eq]
        intro he
        exact hnot (he ▸ hseen)
      exact ⟨hnot, by rw [List.find?_cons_of_neg _ (by simp [hne]), hfind]⟩
    · rename_i hseen
      rcases List.mem_cons.mp h with rfl | h
      · exact ⟨hseen, by rw [List.find?_cons_of_pos _ (by simp)]⟩
      · obtain ⟨hnot, hfind⟩ := ih (l.url :: seen) r h
        have hne : (l.url == r.url) = false := by
          simp only [beq_eq_false_iff_ne, ne_eq]
          intro he
          exact hnot (by simp [he])
        refine ⟨fun hc => hnot (by simp [hc]), ?_⟩
        rw [List.find?_cons_of_neg _ (by simp [hne]), hfind]

theorem dedupLinks_pairwise : ∀ (cands : List BranchLink) (seen : List String),
    (dedupLinks cands seen).Pairwise (fun a b => a.url ≠ b.url) := by
  intro cands
  induction cands with
  | nil => intro seen; simp [dedupLinks]
  | cons l rest ih =>
    intro seen
    rw [dedupLinks]
    split
    · exact ih seen
    · refine List.Pairwise.cons ?_ (ih (l.url :: seen))
      intro b hb
      have := (dedupLinks_find? rest (l.url :: seen) b hb).1
      intro he
      exact this (by simp [he])

theorem dedupLinks_covers : ∀ (cands : List BranchLink) (seen : List String)
    (c : BranchLink), c ∈ cands → c.url ∉ seen →
    ∃ r ∈ dedupLinks cands seen, r.url = c.url := by
  intro cands
  induction cands with
  | nil => intro seen c h; simp at h
  | cons l rest ih =>
    intro seen c hc hnot
    rw [dedupLinks]
    split
    · rename_i hseen
      rcases List.mem_cons.mp hc with rfl | hc
      · exact absurd hseen hnot
      · exact ih seen c hc hnot
    · rename_i hseen
      rcases List.mem_cons.mp hc with rfl | hc
      · exact ⟨c, by simp⟩
      · by_cases he : c.url = l.url
        · exact ⟨l, by simp, he.symm⟩
        · obtain ⟨r, hr, hru⟩ := ih (l.url :: seen) c hc (by simp [he, hnot])
          exact ⟨r, by simp [hr], hru⟩

/-! ## Claim C1: the progress percentage -/

theorem flSig_self {t : Nat} (ht : 0 < t) : flSig t t = (2 ^ 52, 0) := by
  unfold flSig
  rw [if_neg (by omega : ¬ t = 0)]
  simp only [sub_self]
  have h1 : pow2Le (0 + 1) t t = false := by
    simp only [pow2Le, if_pos (by omega : (0:ℤ) ≤ 0 + 1), decide_eq_false_iff_not]
    have he : ((0:ℤ) + 1).toNat = 1 := rfl
    rw [he, pow_one]
    omega
  have h2 : pow2Le 0 t t = true := by
    simp [pow2Le]
  rw [h1, h2]
  have h52 : ((52:ℤ)).toNat = 52 := rfl
  have hn : t * 2 ^ ((52:ℤ)).toNat / t = 2 ^ 52 := by
    rw [h52]
    exact Nat.mul_div_cancel_left _ ht
  have hr : t * 2 ^ ((52:ℤ)).toNat % t = 0 := by
    rw [h52]
    exact Nat.mul_mod_right t _
  norm_num [hn, hr, ht]

theorem pyFloatPct_self (t : Nat) (ht : 0 < t) : pyFloatPct t t = 100 := by
  unfold pyFloatPct
  rw [flSig_self ht]
  decide

/-- C1 (counterexample): the claim says the percentage equals
`round(completed/total*100)`; with `completed = 2, total = 3` the code reports
`int(2/3*100) = 66`, while rounding to the nearest integer — here written for
naturals as `(200*completed + total) / (2*total)` — gives `67`. -/
theorem c1_percentage_not_round :
    (get_progress { progress := 2, total := 3, status := "待機中",
                    current_action := "", clinic_data := [] }).percentage
      ≠ (200 * 2 + 3) / (2 * 3) := by
  decide

/-- C1 (amended): for every progress read with `total > 0` the reported
percentage is the truncation toward zero (Python `int()`) of the IEEE-754
binary64 evaluation of `completed / total * 100`; it is `0` when `total = 0`;
and on completion (`completed = total > 0`) it is exactly `100`. The binary64
value can fall below the exact quotient: at `completed = 29, total = 50` the
code reports `57` (`0.58 * 100 = 57.99999999999999`) although exact
arithmetic gives `58`. -/
theorem c1_percentage_float (s : ScraperState) :
    (0 < s.total → (get_progress s).percentage = pyFloatPct s.progress s.total) ∧
    (s.total = 0 → (get_progress s).percentage = 0) ∧
    (0 < s.total → s.progress = s.total → (get_progress s).percentage = 100) ∧
    pyFloatPct 29 50 = 57 ∧ 29 * 100 / 50 = 58 := by
  refine ⟨?_, ?_, ?_, by decide, by decide⟩
  · intro h
    show (if s.total > 0 then pyFloatPct s.progress s.total else 0) = _
    rw [if_pos h]
  · intro h
    show (if s.total > 0 then pyFloatPct s.progress s.total else 0) = 0
    rw [if_neg (by omega)]
  · intro ht hpt
    show (if s.total > 0 then pyFloatPct s.progress s.total else 0) = 100
    rw [if_pos ht, hpt]
    exact pyFloatPct_self s.total ht

/-- C1 (witness): the amended claim at `completed = 29, total = 50` (the
float value 57) and at `completed = total = 50` (exactly 100). -/
theorem c1_percentage_float_witness :
    (0 < (50 : Nat) ∧
      (get_progress { progress := 29, total := 50, status := "待機中",
                      current_action := "", clinic_data := [] }).percentage
        = pyFloatPct 29 50) ∧
    (get_progress { progress := 50, total := 50, status := "待機中",
                    current_action := "", clinic_data := [] }).percentage = 100 :=
  ⟨⟨by decide,
    (c1_percentage_float { progress := 29, total := 50, status := "待機中",
                           current_action := "", clinic_data := [] }).1 (by decide)⟩,
   (c1_percentage_float { progress := 50, total := 50, status := "待機中",
                          current_action := "", clinic_data := [] }).2.2.1
     (by decide) (by decide)⟩

/-! ## Claim C4: root-page record acceptance -/

/-- C4: the root-page record is appended to the accumulated record list iff
its name is nonempty and at least one of address or access is nonempty; in
particular a nonempty name with empty address and access appends nothing. -/
theorem c4_root_acceptance (soup : Soup) (url : String) (s : ScraperState) :
    ((processRoot soup url s).clinic_data
        = s.clinic_data ++ [extract_clinic_info soup url ""]
      ↔ (extract_clinic_info soup url "").name ≠ "" ∧
          ((extract_clinic_info soup url "").address ≠ "" ∨
           (extract_clinic_info soup url "").access ≠ "")) ∧
    ((extract_clinic_info soup url "").name ≠ "" →
      (extract_clinic_info soup url "").address = "" →
      (extract_clinic_info soup url "").access = "" →
      (processRoot soup url s).clinic_data = s.clinic_data) := by
  constructor
  · by_cases h : ((extract_clinic_info soup url "").name != "" &&
        ((extract_clinic_info soup url "").address != "" ||
         (extract_clinic_info soup url "").access != "")) = true
    · rw [show (processRoot soup url s).clinic_data
          = s.clinic_data ++ [extract_clinic_info soup url ""] from by
        unfold processRoot
        rw [if_pos h]]
      simp only [Bool.and_eq_true, Bool.or_eq_true, bne_iff_ne, ne_eq] at h
      simpa using h
    · rw [show (processRoot soup url s).clinic_data = s.clinic_data from by
        unfold processRoot
        rw [if_neg h]]
      simp only [Bool.and_eq_true, Bool.or_eq_true, bne_iff_ne, ne_eq] at h
      constructor
      · intro he
        exfalso
        have := congrArg List.length he
        simp at this
      · intro hr
        exact absurd (by tauto) h
  · intro hn ha hc
    unfold processRoot
    rw [if_neg]
    simp [ha, hc]

/-- C4 (witness): on a DIO page with a name and an address the root record is
appended; the `mpr` direction is applied at a concrete input. -/
theorem c4_root_acceptance_witness :
    (processRoot dioSoup "http://dioclinic.jp/x" initState).clinic_data
      = initState.clinic_data ++ [extract_clinic_info dioSoup "http://dioclinic.jp/x" ""] :=
  (c4_root_acceptance dioSoup "http://dioclinic.jp/x" initState).1.mpr (by decide)

/-! ## Claim C5: branch-page record acceptance -/

/-- C5: during branch fetching, a successfully fetched branch page's record is
appended iff its name is nonempty — address and access play no role. -/
theorem c5_branch_acceptance (fetch : String → Except String Soup)
    (link : BranchLink) (i : Nat) (s : ScraperState) (soup : Soup)
    (h : fetch link.url = Except.ok soup) :
    (branchLoop fetch [link] i s).clinic_data
        = s.clinic_data ++ [extract_clinic_info soup link.url link.name]
      ↔ (extract_clinic_info soup link.url link.name).name ≠ "" := by
  by_cases hn : ((extract_clinic_info soup link.url link.name).name != "") = true
  · have hdata : (branchLoop fetch [link] i s).clinic_data
        = s.clinic_data ++ [extract_clinic_info soup link.url link.name] := by
      simp [branchLoop, h, hn]
    rw [hdata]
    simp only [bne_iff_ne, ne_eq] at hn
    simpa using hn
  · have hdata : (branchLoop fetch [link] i s).clinic_data = s.clinic_data := by
      simp [branchLoop, h, hn]
    rw [hdata]
    simp only [bne_iff_ne, ne_eq, not_not] at hn
    constructor
    · intro he
      exfalso
      have := congrArg List.length he
      simp at this
    · intro hne
      exact absurd hn hne

/-- C5 (witness): an empty branch page fetched for a link with anchor text
`店舗1` yields a record whose name is the fallback label, so it is appended
even though address and access are empty. -/
theorem c5_branch_acceptance_witness :
    (branchLoop (fun _ => Except.ok emptySoup)
        [{ url := "http://x.st/clinic/b1", name := "店舗1" }] 0 initState).clinic_data
      = initState.clinic_data
        ++ [extract_clinic_info emptySoup "http://x.st/clinic/b1" "店舗1"] :=
  (c5_branch_acceptance (fun _ => Except.ok emptySoup)
      { url := "http://x.st/clinic/b1", name := "店舗1" } 0 initState emptySoup rfl).mpr
    (by decide)

/-! ## Claim C10: CSV export with an empty record list and no filename -/

/-- C10: with an empty record list and no filename argument, `save_to_csv`
succeeds, substitutes the literal `clinics` for the source host in the default
filename, targets the `downloads` directory for creation, and writes only the
four-column header row. The timestamp collaborator never produces a `/`. -/
theorem c10_save_csv_empty (ts : String) (h : ∀ c ∈ ts.data, c ≠ '/') :
    save_to_csv [] ts none =
      ("downloads", "downloads/clinics_clinics_" ++ ts ++ ".csv",
        [["店舗名", "住所", "アクセス", "URL"]]) := by
  have hq : ∀ c ∈ ".csv".data.reverse, (fun c => c != '/') c = true := by decide
  have hts : ∀ c ∈ ts.data.reverse, (fun c => c != '/') c = true := by
    intro c hc
    rw [List.mem_reverse] at hc
    simpa using h c hc
  have hd : dirnameChars (("downloads/clinics_clinics_" ++ ts ++ ".csv").data)
      = "downloads".data := by
    unfold dirnameChars
    rw [String.data_append, String.data_append, List.reverse_append, List.reverse_append,
      dropWhile_append_of_all hq, dropWhile_append_of_all hts]
    decide
  have e : save_to_csv [] ts none =
      (String.mk (dirnameChars (("downloads/clinics_clinics_" ++ ts ++ ".csv").data)),
       "downloads/clinics_clinics_" ++ ts ++ ".csv",
       [["店舗名", "住所", "アクセス", "URL"]]) := rfl
  rw [e, hd]

/-- C10 (witness): the theorem at a concrete timestamp. -/
theorem c10_save_csv_empty_witness :
    save_to_csv [] "20250101_000000" none =
      ("downloads", "downloads/clinics_clinics_" ++ "20250101_000000" ++ ".csv",
        [["店舗名", "住所", "アクセス", "URL"]]) :=
  c10_save_csv_empty "20250101_000000" (by decide)

/-! ## Claim C3: the listing-page threshold -/

/-- C3: when `find_clinic_links` returns exactly 3 links the branch loop is
skipped entirely (the result is the root-stage state, finalized); when it
returns 4 links the crawl enters the branch loop with `total` set to 4 and
`progress` reset to 0. -/
theorem c3_listing_threshold (join : String → String → String)
    (fetch : String → Except String Soup) (url : String) (s0 : ScraperState)
    (soup : Soup) (h : fetch url = Except.ok soup) :
    ((find_clinic_links join soup url).length = 3 →
      scrape_clinics join fetch url s0 =
        (let s2 := processRoot soup url
            { s0 with
              status := "ページを取得中...",
              current_action := "URL: " ++ url }
         ({ s2 with
            status := "完了",
            current_action :=
              toString s2.clinic_data.length ++ "件の店舗情報を取得しました" }, true))) ∧
    ((find_clinic_links join soup url).length = 4 →
      scrape_clinics join fetch url s0 =
        (let s2 := processRoot soup url
            { s0 with
              status := "ページを取得中...",
              current_action := "URL: " ++ url }
         let s3 := branchLoop fetch (find_clinic_links join soup url) 0
            { s2 with
              total := 4,
              progress := 0 }
         ({ s3 with
            status := "完了",
            current_action :=
              toString s3.clinic_data.length ++ "件の店舗情報を取得しました" }, true))) := by
  constructor
  · intro h3
    unfold scrape_clinics
    rw [h]
    simp only [h3]
    norm_num
  · intro h4
    unfold scrape_clinics
    rw [h]
    simp only [h4]
    norm_num

/-- C3 (witness): the exact-3-link listing skips the branch loop; the 4-link
listing enters it with `total = 4, progress = 0`. -/
theorem c3_listing_threshold_witness :
    (scrape_clinics joinW fetchW3 urlW initState =
      (let s2 := processRoot rootSoup3 urlW
          { initState with
            status := "ページを取得中...",
            current_action := "URL: " ++ urlW }
       ({ s2 with
          status := "完了",
          current_action :=
            toString s2.clinic_data.length ++ "件の店舗情報を取得しました" }, true))) ∧
    (scrape_clinics joinW fetchW4 urlW initState =
      (let s2 := processRoot rootSoup4 urlW
          { initState with
            status := "ページを取得中...",
            current_action := "URL: " ++ urlW }
       let s3 := branchLoop fetchW4 (find_clinic_links joinW rootSoup4 urlW) 0
          { s2 with
            total := 4,
            progress := 0 }
       ({ s3 with
          status := "完了",
          current_action :=
            toString s3.clinic_data.length ++ "件の店舗情報を取得しました" }, true))) :=
  ⟨(c3_listing_threshold joinW fetchW3 urlW initState rootSoup3 rfl).1 (by decide),
   (c3_listing_threshold joinW fetchW4 urlW initState rootSoup4 rfl).2 (by decide)⟩

/-! ## Claim C6: a single branch failure is skipped, the crawl continues -/

/-- C6: with 5 discovered links of which the third fails to fetch, the crawl
does not abort: the failed link is skipped, every other link is processed, the
record list holds the records of links 1, 2, 4, 5 (each yielding a nonempty
name), and the crawl returns success. The root page is assumed to yield no
record of its own and the record list starts empty. -/
theorem c6_branch_failure_skipped (join : String → String → String)
    (fetch : String → Except String Soup) (url : String) (s0 : ScraperState)
    (soup b1 b2 b4 b5 : Soup) (l1 l2 l3 l4 l5 : BranchLink) (e : String)
    (hroot : fetch url = Except.ok soup)
    (hname : (extract_clinic_info soup url "").name = "")
    (hlinks : find_clinic_links join soup url = [l1, l2, l3, l4, l5])
    (h1 : fetch l1.url = Except.ok b1)
    (h2 : fetch l2.url = Except.ok b2)
    (h3 : fetch l3.url = Except.error e)
    (h4 : fetch l4.url = Except.ok b4)
    (h5 : fetch l5.url = Except.ok b5)
    (n1 : (extract_clinic_info b1 l1.url l1.name).name ≠ "")
    (n2 : (extract_clinic_info b2 l2.url l2.name).name ≠ "")
    (n4 : (extract_clinic_info b4 l4.url l4.name).name ≠ "")
    (n5 : (extract_clinic_info b5 l5.url l5.name).name ≠ "")
    (hinit : s0.clinic_data = []) :
    (scrape_clinics join fetch url s0).2 = true ∧
    (scrape_clinics join fetch url s0).1.clinic_data =
      [extract_clinic_info b1 l1.url l1.name, extract_clinic_info b2 l2.url l2.name,
       extract_clinic_info b4 l4.url l4.name, extract_clinic_info b5 l5.url l5.name] := by
  have hb1 : ((extract_clinic_info b1 l1.url l1.name).name != "") = true := bne_iff_ne.mpr n1
  have hb2 : ((extract_clinic_info b2 l2.url l2.name).name != "") = true := bne_iff_ne.mpr n2
  have hb4 : ((extract_clinic_info b4 l4.url l4.name).name != "") = true := bne_iff_ne.mpr n4
  have hb5 : ((extract_clinic_info b5 l5.url l5.name).name != "") = true := bne_iff_ne.mpr n5
  constructor
  · simp [scrape_clinics, hroot]
  · simp only [scrape_clinics, hroot, hlinks, processRoot, hname, bne_self_eq_false,
      Bool.false_and, Bool.false_eq_true, if_false, List.length_cons, List.length_nil,
      branchLoop, h1, h2, h3, h4, h5, hb1, hb2, hb4, hb5, if_true, hinit]
    norm_num

/-- C6 (witness): the 5-link fixture whose third branch fetch raises. -/
theorem c6_branch_failure_skipped_witness :
    (scrape_clinics joinW fetchW5 urlW initState).2 = true ∧
    (scrape_clinics joinW fetchW5 urlW initState).1.clinic_data =
      [extract_clinic_info emptySoup "http://x.st/clinic/b1" "店舗1",
       extract_clinic_info emptySoup "http://x.st/clinic/b2" "店舗2",
       extract_clinic_info emptySoup "http://x.st/clinic/b4" "店舗4",
       extract_clinic_info emptySoup "http://x.st/clinic/b5" "店舗5"] :=
  c6_branch_failure_skipped joinW fetchW5 urlW initState
    rootSoup5 emptySoup emptySoup emptySoup emptySoup
    ⟨"http://x.st/clinic/b1", "店舗1"⟩ ⟨"http://x.st/clinic/b2", "店舗2"⟩
    ⟨"http://x.st/clinic/b3", "店舗3"⟩ ⟨"http://x.st/clinic/b4", "店舗4"⟩
    ⟨"http://x.st/clinic/b5", "店舗5"⟩ "connection error"
    rfl (by decide) (by decide) rfl rfl rfl rfl rfl
    (by decide) (by decide) (by decide) (by decide) rfl

/-! ## Claim C2: the fallback label and the extracted name -/

/-- C2 (counterexample): on a generic page whose first `h1` is a qualifying
clinic name, a nonempty fallback label still becomes the returned record's
name — the Field Extractor applies the fallback itself (it initialises the
name with it and then skips the heading scan), and no orchestrator
post-processing is involved: with an empty fallback the same page yields the
page-derived name instead. -/
theorem c2_fallback_counterexample :
    (extract_clinic_info headingSoup "http://example.com/x" "渋谷院").name = "渋谷院" ∧
    scanTags headingSoup ["h1", "h2"] = some "新宿クリニック" ∧
    (extract_clinic_info headingSoup "http://example.com/x" "").name = "新宿クリニック" ∧
    ("渋谷院" : String) ≠ "新宿クリニック" := by
  refine ⟨by decide, by decide, by decide, by decide⟩

theorem eminal_fold_name (rows : List TableRow) :
    ∀ c : ClinicInfo,
      (rows.foldl applyRowEminal c).name = (lastRowName rows).getD c.name := by
  induction rows with
  | nil => intro c; rfl
  | cons row rest ih =>
    intro c
    rw [List.foldl_cons, ih, lastRowName]
    cases hl : lastRowName rest with
    | some t => rfl
    | none =>
      obtain ⟨th, td⟩ := row
      cases th with
      | none => rfl
      | some a =>
        cases td with
        | none => rfl
        | some b =>
          by_cases h1 : strContains a "院名" = true
          · simp [applyRowEminal, h1]
          · by_cases h2 : strContains a "住所" = true
            · simp [applyRowEminal, h1, h2]
            · by_cases h3 : strContains a "アクセス" = true
              · simp [applyRowEminal, h1, h2, h3]
              · simp [applyRowEminal, h1, h2, h3]

theorem freya_fold_name (rows : List TableRow) :
    ∀ c : ClinicInfo, (rows.foldl applyRowFreya c).name = c.name := by
  induction rows with
  | nil => intro c; rfl
  | cons row rest ih =>
    intro c
    rw [List.foldl_cons, ih]
    obtain ⟨th, td⟩ := row
    cases th with
    | none => rfl
    | some a =>
      cases td with
      | none => rfl
      | some b =>
        by_cases h1 : strContains a "所在地" = true
        · simp [applyRowFreya, h1]
        · by_cases h2 : strContains a "アクセス" = true
          · simp [applyRowFreya, h1, h2]
          · simp [applyRowFreya, h1, h2]

theorem branchLoop_records (fetch : String → Except String Soup) :
    ∀ (links : List BranchLink) (i : Nat) (s : ScraperState),
      ∀ rec ∈ (branchLoop fetch links i s).clinic_data,
        rec ∈ s.clinic_data ∨
          ∃ link ∈ links, ∃ bsoup, fetch link.url = Except.ok bsoup ∧
            rec = extract_clinic_info bsoup link.url link.name := by
  intro links
  induction links with
  | nil =>
    intro i s rec h
    rw [branchLoop] at h
    exact Or.inl h
  | cons link rest ih =>
    intro i s rec h
    rw [branchLoop] at h
    cases hf : fetch link.url with
    | ok bsoup =>
      by_cases hn : ((extract_clinic_info bsoup link.url link.name).name != "") = true
      · simp only [hf, hn, if_true] at h
        rcases ih _ _ rec h with hmem | ⟨l, hl, bs, hfs, hrec⟩
        · rcases List.mem_append.mp hmem with hmem | hmem
          · exact Or.inl hmem
          · rcases List.mem_singleton.mp hmem with rfl
            exact Or.inr ⟨link, List.mem_cons_self link rest, bsoup, hf, rfl⟩
        · exact Or.inr ⟨l, List.mem_cons_of_mem link hl, bs, hfs, hrec⟩
      · have hn2 : ((extract_clinic_info bsoup link.url link.name).name != "") = false := by
          simpa using hn
        simp only [hf, hn2, if_false] at h
        rcases ih _ _ rec h with hmem | ⟨l, hl, bs, hfs, hrec⟩
        · exact Or.inl hmem
        · exact Or.inr ⟨l, List.mem_cons_of_mem link hl, bs, hfs, hrec⟩
    | error e =>
      simp only [hf] at h
      rcases ih _ _ rec h with hmem | ⟨l, hl, bs, hfs, hrec⟩
      · exact Or.inl hmem
      · exact Or.inr ⟨l, List.mem_cons_of_mem link hl, bs, hfs, hrec⟩

/-- C2 (amended): the Field Extractor itself applies the fallback label, as
the initial value of the record's name. On a page with no known host marker a
nonempty fallback is final — the heading scan is skipped entirely, even if
the page has a qualifying heading — and an empty fallback is replaced by the
heading-scan result (or stays empty). On the known-marker pages the
page-derived name, when found, overwrites the fallback: site A takes the
`h2.clinic-name` element, site B the last `院名` table row, site C the first
`h1`, each falling back to the label only when absent. The Orchestrator
performs no name post-processing: every record the branch loop accumulates is
the Field Extractor's output, verbatim. -/
theorem c2_fallback_behavior (soup : Soup) (url fb : String) :
    (strContains (urlDomain url) "dioclinic" = false →
     strContains (urlDomain url) "eminal-clinic" = false →
     strContains (urlDomain url) "frey-a" = false →
      ((fb ≠ "" → (extract_clinic_info soup url fb).name = fb) ∧
       (fb = "" → (extract_clinic_info soup url fb).name
          = (scanTags soup ["h1", "h2"]).getD ""))) ∧
    (strContains (urlDomain url) "dioclinic" = true →
      (extract_clinic_info soup url fb).name
        = (soup.findTagClass "h2" "clinic-name").getD fb) ∧
    (strContains (urlDomain url) "dioclinic" = false →
     strContains (urlDomain url) "eminal-clinic" = true →
      (extract_clinic_info soup url fb).name = (lastRowName soup.rows).getD fb) ∧
    (strContains (urlDomain url) "dioclinic" = false →
     strContains (urlDomain url) "eminal-clinic" = false →
     strContains (urlDomain url) "frey-a" = true →
      (extract_clinic_info soup url fb).name = (soup.findTag "h1").getD fb) ∧
    (∀ (fetch : String → Except String Soup) (links : List BranchLink) (i : Nat)
        (s : ScraperState), ∀ rec ∈ (branchLoop fetch links i s).clinic_data,
      rec ∈ s.clinic_data ∨
        ∃ link ∈ links, ∃ bsoup, fetch link.url = Except.ok bsoup ∧
          rec = extract_clinic_info bsoup link.url link.name) := by
  refine ⟨?_, ?_, ?_, ?_, ?_⟩
  · intro hdio hemi hfre
    constructor
    · intro hfb
      have hfb2 : (fb == "") = false := beq_eq_false_iff_ne.mpr hfb
      simp only [extract_clinic_info, hdio, hemi, hfre, Bool.false_eq_true, if_false, hfb2]
      repeat' split
      all_goals rfl
    · intro hfb
      subst hfb
      simp only [extract_clinic_info, hdio, hemi, hfre, Bool.false_eq_true, if_false,
        beq_self_eq_true, if_true]
      repeat' split
      all_goals simp_all
  · intro hdio
    simp only [extract_clinic_info, hdio, if_true]
    repeat' split
    all_goals simp_all
  · intro hdio hemi
    simp only [extract_clinic_info, hdio, Bool.false_eq_true, if_false, hemi, if_true]
    rw [eminal_fold_name]
  · intro hdio hemi hfre
    simp only [extract_clinic_info, hdio, hemi, Bool.false_eq_true, if_false, hfre, if_true]
    rw [freya_fold_name]
    cases hft : soup.findTag "h1" <;> simp [hft]
  · exact fun fetch links i s => branchLoop_records fetch links i s

/-- C2 (witness): the site-A conjunct at a concrete DIO page and the site-B
conjunct at a concrete eminal page with an `院名` row. -/
theorem c2_fallback_behavior_witness :
    (extract_clinic_info dioSoup "http://dioclinic.jp/x" "渋谷院").name
      = (dioSoup.findTagClass "h2" "clinic-name").getD "渋谷院" ∧
    (extract_clinic_info eminalSoup "http://eminal-clinic.jp/x" "持参名").name
      = (lastRowName eminalSoup.rows).getD "持参名" :=
  ⟨(c2_fallback_behavior dioSoup "http://dioclinic.jp/x" "渋谷院").2.1 (by decide),
   (c2_fallback_behavior eminalSoup "http://eminal-clinic.jp/x" "持参名").2.2.1
     (by decide) (by decide)⟩

/-! ## Claim C7: deduplication and order of discovered links -/

/-- C7: `find_clinic_links` returns no two links with the same resolved URL,
and its order is the first-occurrence document order of the matching anchors:
it is a sublist of the candidate sequence (one candidate per matching anchor,
in document order), every candidate URL is represented, and each returned
link is the first candidate carrying its URL. -/
theorem c7_link_dedup_order (join : String → String → String) (soup : Soup)
    (base_url : String) :
    (find_clinic_links join soup base_url).Pairwise (fun a b => a.url ≠ b.url) ∧
    List.Sublist (find_clinic_links join soup base_url)
      (clinicLinkCandidates join soup base_url) ∧
    (∀ c ∈ clinicLinkCandidates join soup base_url,
      ∃ r ∈ find_clinic_links join soup base_url, r.url = c.url) ∧
    (∀ r ∈ find_clinic_links join soup base_url,
      (clinicLinkCandidates join soup base_url).find? (fun c => c.url == r.url)
        = some r) := by
  refine ⟨dedupLinks_pairwise _ _, dedupLinks_sublist _ _, ?_, ?_⟩
  · intro c hc
    exact dedupLinks_covers _ [] c hc (by simp)
  · intro r hr
    exact (dedupLinks_find? _ [] r hr).2

/-- C7 (witness): on a page listing `/clinic/a` twice, the duplicated URL is
still represented in the deduplicated output. -/
theorem c7_link_dedup_order_witness :
    ∃ r ∈ find_clinic_links joinW dupLinkSoup urlW, r.url = "http://x.st/clinic/a" :=
  (c7_link_dedup_order joinW dupLinkSoup urlW).2.2.1
    ⟨"http://x.st/clinic/a", "A2"⟩ (by decide)

/-! ## Claim C8: end anchoring of the link patterns -/

theorem endPat_sound {mk s c r : List Char}
    (h : (c, r) ∈ Rx.matches (endPat mk) s) :
    ∃ seg copt, c = mk ++ seg ++ copt ∧ seg ≠ [] ∧ (∀ x ∈ seg, x ≠ '/') ∧
      (copt = [] ∨ copt = ['/']) ∧ (r = [] ∨ r = ['\n']) := by
  obtain ⟨c1, r1, c2, hm1, hm2, hc⟩ := matches_seq_elim h
  obtain ⟨hc1, hs1⟩ := matches_str_elim hm1
  obtain ⟨c3, r3, c4, hm3, hm4, hc2⟩ := matches_seq_elim hm2
  rw [Rx.matches] at hm3
  obtain ⟨hne, hall, hr1⟩ := mem_greedyPlusSplits_elim hm3
  obtain ⟨c5, r5, c6, hm5, hm6, hc4⟩ := matches_seq_elim hm4
  obtain ⟨hc6, hr6, heol⟩ := matches_eol_elim hm6
  refine ⟨c3, c5, ?_, hne, ?_, ?_, ?_⟩
  · rw [hc, hc1, hc2, hc4, hc6]
    simp [List.append_assoc]
  · intro x hx
    have := hall x hx
    simpa [nonSlash] using this
  · rcases matches_opt_elim hm5 with hstr | ⟨rfl, rfl⟩
    · right
      exact (matches_str_elim hstr).1
    · left
      rfl
  · rw [hr6]
    exact heol

/-- C8 (counterexample): the href `/clinic/tokyo/\n` is matched by the
`/clinic/` pattern (Python `$` also matches just before a single terminal
newline), yet no suffix of it has the claimed shape "marker, one further
segment, optional single trailing slash, end of string". -/
theorem c8_link_pattern_counterexample :
    matchesAnyLinkPat "/clinic/tokyo/\n" = true ∧
    anyStrictEndAnchored "/clinic/tokyo/\n" = false := by
  refine ⟨by decide, by decide⟩

/-- C8 (amended): a path-shape pattern matches only when the `/clinic/`,
`/store/`, `/shop/` or `/access/` marker plus one further (`/`-free, possibly
newline-containing) segment ends the string — optionally followed by one
trailing slash, where Python's `$` also accepts a position just before a
single terminal newline, so the tail after the segment is one of `""`, `"/"`,
`"\n"`, `"/\n"`. The href `/clinic/tokyo/reviews` matches no pattern. -/
theorem c8_link_pattern_anchoring :
    (∀ href : String, matchesAnyLinkPat href = true →
      ∃ mk ∈ linkMarkers, ∃ pre seg t : List Char,
        href.data = pre ++ mk.data ++ seg ++ t ∧ seg ≠ [] ∧ (∀ x ∈ seg, x ≠ '/') ∧
        (t = [] ∨ t = ['/'] ∨ t = ['\n'] ∨ t = ['/', '\n'])) ∧
    matchesAnyLinkPat "/clinic/tokyo/reviews" = false := by
  constructor
  · intro href h
    rw [matchesAnyLinkPat, List.any_eq_true] at h
    obtain ⟨p, hp, hsome⟩ := h
    rw [link_patterns, List.mem_map] at hp
    obtain ⟨mkStr, hmk, rfl⟩ := hp
    rw [Option.isSome_iff_exists] at hsome
    obtain ⟨m, hm⟩ := hsome
    obtain ⟨pre, t0, r, hsplit, hmem⟩ := rxSearch_sound hm
    have hts : t0 = m ++ r := matches_sound hmem
    obtain ⟨seg, copt, hcm, hsegne, hsegslash, hcopt, hrr⟩ := endPat_sound hmem
    refine ⟨mkStr, hmk, pre, seg, copt ++ r, ?_, hsegne, hsegslash, ?_⟩
    · rw [hsplit, hts, hcm]
      simp [List.append_assoc]
    · rcases hcopt with rfl | rfl <;> rcases hrr with rfl | rfl <;> simp
  · decide

/-- C8 (witness): applied at the plain href `/clinic/tokyo`. -/
theorem c8_link_pattern_anchoring_witness :
    matchesAnyLinkPat "/clinic/tokyo" = true ∧
    (∃ mk ∈ linkMarkers, ∃ pre seg t : List Char,
      "/clinic/tokyo".data = pre ++ mk.data ++ seg ++ t ∧ seg ≠ [] ∧
      (∀ x ∈ seg, x ≠ '/') ∧ (t = [] ∨ t = ['/'] ∨ t = ['\n'] ∨ t = ['/', '\n'])) :=
  ⟨by decide, c8_link_pattern_anchoring.1 "/clinic/tokyo" (by decide)⟩

/-! ## Claim C9: the generic address extraction -/

/-- Wherever the sample address substring starts, the first address pattern
has a match (built here explicitly: postal code, lazy run `東京`, prefecture
char `都`, lazy run `渋谷`, city char `区`). -/
theorem addrPat1_matches_target (post : List Char) :
    Rx.matches addrPat1 ("〒150-0001東京都渋谷区渋谷1-1-1".data ++ post) ≠ [] := by
  have hc1 : (['区'], "渋谷1-1-1".data ++ post)
      ∈ Rx.matches (.cls cityCh) ("区渋谷1-1-1".data ++ post) :=
    mem_matches_cls _ (by decide)
  have hlz2 : ("渋谷".data, "区渋谷1-1-1".data ++ post)
      ∈ Rx.matches .lazy ("渋谷区渋谷1-1-1".data ++ post) :=
    mem_matches_lazy _ (by decide)
  have hs1 := mem_matches_seq hlz2 hc1
  have hpf : (['都'], "渋谷区渋谷1-1-1".data ++ post)
      ∈ Rx.matches (.cls prefCh) ("都渋谷区渋谷1-1-1".data ++ post) :=
    mem_matches_cls _ (by decide)
  have hs2 := mem_matches_seq hpf hs1
  have hlz1 : ("東京".data, "都渋谷区渋谷1-1-1".data ++ post)
      ∈ Rx.matches .lazy ("東京都渋谷区渋谷1-1-1".data ++ post) :=
    mem_matches_lazy _ (by decide)
  have hs3 := mem_matches_seq hlz1 hs2
  have hd7 : (['1'], "東京都渋谷区渋谷1-1-1".data ++ post)
      ∈ Rx.matches (.cls isDigitCh) ("1東京都渋谷区渋谷1-1-1".data ++ post) :=
    mem_matches_cls _ (by decide)
  have hs4 := mem_matches_seq hd7 hs3
  have hd6 : (['0'], "1東京都渋谷区渋谷1-1-1".data ++ post)
      ∈ Rx.matches (.cls isDigitCh) ("01東京都渋谷区渋谷1-1-1".data ++ post) :=
    mem_matches_cls _ (by decide)
  have hs5 := mem_matches_seq hd6 hs4
  have hd5 : (['0'], "01東京都渋谷区渋谷1-1-1".data ++ post)
      ∈ Rx.matches (.cls isDigitCh) ("001東京都渋谷区渋谷1-1-1".data ++ post) :=
    mem_matches_cls _ (by decide)
  have hs6 := mem_matches_seq hd5 hs5
  have hd4 : (['0'], "001東京都渋谷区渋谷1-1-1".data ++ post)
      ∈ Rx.matches (.cls isDigitCh) ("0001東京都渋谷区渋谷1-1-1".data ++ post) :=
    mem_matches_cls _ (by decide)
  have hs7 := mem_matches_seq hd4 hs6
  have hdash : ("-".data, "0001東京都渋谷区渋谷1-1-1".data ++ post)
      ∈ Rx.matches (.str "-".data) ("-0001東京都渋谷区渋谷1-1-1".data ++ post) :=
    mem_matches_str "-".data ("0001東京都渋谷区渋谷1-1-1".data ++ post)
  have hs8 := mem_matches_seq hdash hs7
  have hd3 : (['0'], "-0001東京都渋谷区渋谷1-1-1".data ++ post)
      ∈ Rx.matches (.cls isDigitCh) ("0-0001東京都渋谷区渋谷1-1-1".data ++ post) :=
    mem_matches_cls _ (by decide)
  have hs9 := mem_matches_seq hd3 hs8
  have hd2 : (['5'], "0-0001東京都渋谷区渋谷1-1-1".data ++ post)
      ∈ Rx.matches (.cls isDigitCh) ("50-0001東京都渋谷区渋谷1-1-1".data ++ post) :=
    mem_matches_cls _ (by decide)
  have hs10 := mem_matches_seq hd2 hs9
  have hd1 : (['1'], "50-0001東京都渋谷区渋谷1-1-1".data ++ post)
      ∈ Rx.matches (.cls isDigitCh) ("150-0001東京都渋谷区渋谷1-1-1".data ++ post) :=
    mem_matches_cls _ (by decide)
  have hs11 := mem_matches_seq hd1 hs10
  have hstr : ("〒".data, "150-0001東京都渋谷区渋谷1-1-1".data ++ post)
      ∈ Rx.matches (.str "〒".data) ("〒150-0001東京都渋谷区渋谷1-1-1".data ++ post) :=
    mem_matches_str "〒".data ("150-0001東京都渋谷区渋谷1-1-1".data ++ post)
  have hs12 := mem_matches_seq hstr hs11
  exact List.ne_nil_of_mem hs12

/-- Every match of the first address pattern starts with `〒`. -/
theorem addrPat1_match_head {text m : List Char}
    (h : rxSearch addrPat1 text = some m) : ∃ tail, m = '〒' :: tail := by
  obtain ⟨pre, t0, r, hsplit, hmem⟩ := rxSearch_sound h
  obtain ⟨c1, r1, c2, hm1, hm2, hc⟩ := matches_seq_elim hmem
  have hc1 : c1 = "〒".data := (matches_str_elim hm1).1
  exact ⟨c2, by rw [hc, hc1]; rfl⟩

/-- C9 (counterexample): a generic page whose text contains the sample
substring but has an earlier postal address: the extracted address is
nonempty but starts with the earlier `〒100-0002`, not `〒150-0001`. -/
theorem c9_address_counterexample :
    hasSubstr dupAddrSoup.textContent.data "〒150-0001東京都渋谷区渋谷1-1-1".data = true ∧
    (extract_clinic_info dupAddrSoup "http://example.com/x" "").address
      = "〒100-0002東京都千代田区" ∧
    startsWithList "〒150-0001".data
      (extract_clinic_info dupAddrSoup "http://example.com/x" "").address.data = false := by
  refine ⟨by decide, by decide, by decide⟩

/-- C9 (amended): on every page with no known host marker whose full text
contains the substring `〒150-0001東京都渋谷区渋谷1-1-1`, the generic address
extraction returns a nonempty address that starts with the postal mark `〒`
(the leftmost postal-pattern match, which need not be the sample
occurrence). -/
theorem c9_generic_address (soup : Soup) (url fb : String)
    (hdio : strContains (urlDomain url) "dioclinic" = false)
    (hemi : strContains (urlDomain url) "eminal-clinic" = false)
    (hfre : strContains (urlDomain url) "frey-a" = false)
    (htext : hasSubstr soup.textContent.data
      "〒150-0001東京都渋谷区渋谷1-1-1".data = true) :
    (extract_clinic_info soup url fb).address ≠ "" ∧
    (extract_clinic_info soup url fb).address.data.head? = some '〒' := by
  obtain ⟨pre, post, hsplit⟩ := hasSubstr_split htext
  have hsome : (rxSearch addrPat1 soup.textContent.data).isSome = true := by
    rw [show soup.textContent.data
        = pre ++ ("〒150-0001東京都渋谷区渋谷1-1-1".data ++ post) from by
      rw [hsplit, List.append_assoc]]
    exact rxSearch_isSome_of_suffix (addrPat1_matches_target post) pre
  obtain ⟨m, hm⟩ := Option.isSome_iff_exists.mp hsome
  obtain ⟨tail, htail⟩ := addrPat1_match_head hm
  have hfp : firstPatternMatch address_patterns soup.textContent.data = some m := by
    rw [address_patterns, firstPatternMatch, hm]
  have haddr : (extract_clinic_info soup url fb).address = String.mk m := by
    simp only [extract_clinic_info, hdio, hemi, hfre, Bool.false_eq_true, if_false, hfp]
    split <;> rfl
  constructor
  · rw [haddr, htail]
    intro hcon
    simpa using congrArg String.data hcon
  · rw [haddr, htail]
    rfl

/-- C9 (witness): a generic page whose entire text is the sample address. -/
theorem c9_generic_address_witness :
    hasSubstr addrSoup.textContent.data "〒150-0001東京都渋谷区渋谷1-1-1".data = true ∧
    ((extract_clinic_info addrSoup "http://example.com/x" "").address ≠ "" ∧
     (extract_clinic_info addrSoup "http://example.com/x" "").address.data.head?
       = some '〒') :=
  ⟨by decide,
   c9_generic_address addrSoup "http://example.com/x" ""
     (by decide) (by decide) (by decide) (by decide)⟩
